import Mathlib

/-!
A shallow embedding of the chess-variant rules engine implemented in
`src/game/scenes/ChessScene.ts`.  Pieces carry hit points; captures are
resolved as damage.  Each definition below mirrors one function (or one
self-contained block) of the source scene; rendering, animation and input
code is out of scope.  Mutation of JavaScript arrays/objects is modelled
by value-passing: a board is a total map from coordinates to optional
pieces, and the in-place writes of the source become functional updates.
-/

namespace ChessVariant

/-- `type PieceColor = 'w' | 'b'` -/
inductive PieceColor where
  | w
  | b
deriving DecidableEq

/-- `type PieceType = 'p' | 'r' | 'n' | 'b' | 'q' | 'k'` -/
inductive PieceType where
  | p
  | r
  | n
  | b
  | q
  | k
deriving DecidableEq

/-- `type Piece = { color; type; moved; hp; maxHp }` (hp is a JS number,
modelled as an integer: all arithmetic performed on it is integral). -/
structure Piece where
  color : PieceColor
  type : PieceType
  moved : Bool
  hp : Int
  maxHp : Int
deriving DecidableEq

/-- The `special` tag of a `Move` (`'castle' | 'en-passant'`). -/
inductive MSpecial where
  | castle
  | enPassant
deriving DecidableEq

/-- `type Move = Square & { special?; rookFromCol?; rookToCol? }` -/
structure Move where
  row : Int
  col : Int
  special : Option MSpecial
  rookFromCol : Option Int
  rookToCol : Option Int
deriving DecidableEq

/-- `type Square = { row; col }` (the source stores plain numbers; bounds
are enforced dynamically through `inBounds`). -/
structure Square where
  row : Int
  col : Int
deriving DecidableEq

/-- `type LastMove = { from; to; piece; wasDoublePawnStep }` -/
structure LastMove where
  fromSq : Square
  toSq : Square
  piece : Piece
  wasDoublePawnStep : Bool
deriving DecidableEq

/-- `this.board : (Piece | null)[][]`, an 8×8 grid of optional pieces. -/
abbrev Board := Fin 8 → Fin 8 → Option Piece

/-- `inBounds(row, col)` : `row >= 0 && row < 8 && col >= 0 && col < 8`. -/
def inB (row col : Int) : Prop :=
  0 ≤ row ∧ row < 8 ∧ 0 ≤ col ∧ col < 8

instance (row col : Int) : Decidable (inB row col) := by
  unfold inB; infer_instance

/-- Reading `board[row][col]` with dynamic indices; out-of-bounds reads
yield `none` (the source always guards reads by `inBounds`). -/
def bget (board : Board) (row col : Int) : Option Piece :=
  if h : inB row col then
    board ⟨row.toNat, by have hb := h; unfold inB at hb; omega⟩
      ⟨col.toNat, by have hb := h; unfold inB at hb; omega⟩
  else none

/-- Writing `board[row][col] = v` as a functional update (out-of-bounds
writes are never performed by the source paths under specification). -/
def bset (board : Board) (row col : Int) (v : Option Piece) : Board :=
  fun i j => if ((i : Nat) : Int) = row ∧ ((j : Nat) : Int) = col then v else board i j

/-- `PIECE_HP` : per-kind maximum hit points. -/
def pieceHpOf : PieceType → Int
  | .p => 2
  | .n => 3
  | .b => 3
  | .r => 4
  | .q => 5
  | .k => 7

/-- `getPieceDamage` / `PIECE_DAMAGE` : per-kind attack damage. -/
def getPieceDamage : PieceType → Int
  | .p => 1
  | .n => 2
  | .b => 2
  | .r => 3
  | .q => 3
  | .k => 2

/-- `createPiece(color, type)` : fresh piece, unmoved, at full HP. -/
def createPiece (color : PieceColor) (type : PieceType) : Piece :=
  { color := color, type := type, moved := false,
    hp := pieceHpOf type, maxHp := pieceHpOf type }

/-- `BACK_RANK = ['r','n','b','q','k','b','n','r']` -/
def backRank : List PieceType := [.r, .n, .b, .q, .k, .b, .n, .r]

/-- `createInitialBoard()` : black back rank on row 0, black pawns row 1,
white pawns row 6, white back rank row 7. -/
def createInitialBoard : Board := fun r c =>
  match r.val with
  | 0 => some (createPiece .b (backRank.getD c.val .p))
  | 1 => some (createPiece .b .p)
  | 6 => some (createPiece .w .p)
  | 7 => some (createPiece .w (backRank.getD c.val .p))
  | _ => none

/-- The opponent of a color (`color === 'w' ? 'b' : 'w'`). -/
def otherColor : PieceColor → PieceColor
  | .w => .b
  | .b => .w

/-- The pawn advance direction (`piece.color === 'w' ? -1 : 1`). -/
def pawnDirection (color : PieceColor) : Int :=
  if color = .w then -1 else 1

/-- The pawn starting row (`piece.color === 'w' ? 6 : 1`). -/
def pawnStartRow (color : PieceColor) : Int :=
  if color = .w then 6 else 1

/-- The forward-advance part of the pawn block of `getPseudoMoves`: one
step onto an empty square, plus the double step from the starting rank;
suppressed entirely in attack-map mode. -/
def pawnFwdMoves (board : Board) (row col : Int) (piece : Piece)
    (forAttackMap : Bool) : List Move :=
  let direction := pawnDirection piece.color
  let oneForward := row + direction
  if forAttackMap = false ∧ inB oneForward col ∧ bget board oneForward col = none then
    let twoForward := row + direction * 2
    if row = pawnStartRow piece.color ∧ bget board twoForward col = none then
      [⟨oneForward, col, none, none, none⟩, ⟨twoForward, col, none, none, none⟩]
    else
      [⟨oneForward, col, none, none, none⟩]
  else []

/-- The diagonal part of the pawn block of `getPseudoMoves`: in attack-map
mode both diagonals regardless of occupancy, otherwise only
enemy-occupied diagonals. -/
def pawnDiagMoves (board : Board) (row col : Int) (piece : Piece)
    (forAttackMap : Bool) : List Move :=
  ([-1, 1] : List Int).filterMap (fun delta =>
    let attackRow := row + pawnDirection piece.color
    let attackCol := col + delta
    if inB attackRow attackCol then
      if forAttackMap then some ⟨attackRow, attackCol, none, none, none⟩
      else
        match bget board attackRow attackCol with
        | some target =>
          if target.color ≠ piece.color then some ⟨attackRow, attackCol, none, none, none⟩
          else none
        | none => none
    else none)

/-- The en-passant part of the pawn block of `getPseudoMoves`: offered
only outside attack-map mode, and only when the retained `this.lastMove`
record is an opponent pawn double step landing beside this pawn and the
diagonal target square is empty. -/
def pawnEpMoves (board : Board) (lastMove : Option LastMove) (row col : Int)
    (piece : Piece) (forAttackMap : Bool) : List Move :=
  match lastMove with
  | some lm =>
    if forAttackMap = false ∧ lm.wasDoublePawnStep = true ∧ lm.piece.type = .p ∧
        lm.piece.color ≠ piece.color ∧ lm.toSq.row = row ∧ (lm.toSq.col - col).natAbs = 1 then
      let enPassantRow := row + pawnDirection piece.color
      let enPassantCol := lm.toSq.col
      if inB enPassantRow enPassantCol ∧ bget board enPassantRow enPassantCol = none then
        [⟨enPassantRow, enPassantCol, some .enPassant, none, none⟩]
      else []
    else []
  | none => []

/-- The pawn block of `getPseudoMoves`, in source push order: forward
advances, diagonal attacks, en passant. -/
def pawnMoves (board : Board) (lastMove : Option LastMove) (row col : Int)
    (piece : Piece) (forAttackMap : Bool) : List Move :=
  pawnFwdMoves board row col piece forAttackMap ++
    pawnDiagMoves board row col piece forAttackMap ++
    pawnEpMoves board lastMove row col piece forAttackMap

/-- The eight L-shaped knight offsets, in source order. -/
def knightOffsets : List (Int × Int) :=
  [(-2, -1), (-2, 1), (-1, -2), (-1, 2), (1, -2), (1, 2), (2, -1), (2, 1)]

/-- The knight block of `getPseudoMoves`. -/
def knightMoves (board : Board) (row col : Int) (piece : Piece) : List Move :=
  knightOffsets.filterMap (fun d =>
    let nextRow := row + d.1
    let nextCol := col + d.2
    if inB nextRow nextCol then
      match bget board nextRow nextCol with
      | none => some ⟨nextRow, nextCol, none, none, none⟩
      | some target =>
        if target.color ≠ piece.color then some ⟨nextRow, nextCol, none, none, none⟩
        else none
    else none)

/-- One ray of the slider `while (inBounds...)` loop.  The fuel bound 8 is
never reached: a walk started next to an in-bounds square leaves the board
after at most seven steps. -/
def rayWalk (board : Board) (pieceColor : PieceColor) (dr dc : Int) :
    Nat → Int → Int → List Move
  | 0, _, _ => []
  | fuel + 1, row, col =>
    if inB row col then
      match bget board row col with
      | none =>
        ⟨row, col, none, none, none⟩ :: rayWalk board pieceColor dr dc fuel (row + dr) (col + dc)
      | some target =>
        if target.color ≠ pieceColor then [⟨row, col, none, none, none⟩] else []
    else []

/-- Direction sets for bishop / rook / queen, in source push order. -/
def sliderDirections (type : PieceType) : List (Int × Int) :=
  (if type = .b ∨ type = .q then [(-1, -1), (-1, 1), (1, -1), (1, 1)] else []) ++
  (if type = .r ∨ type = .q then [(-1, 0), (1, 0), (0, -1), (0, 1)] else [])

/-- The bishop/rook/queen block of `getPseudoMoves`. -/
def sliderMoves (board : Board) (row col : Int) (piece : Piece) : List Move :=
  (sliderDirections piece.type).flatMap (fun d =>
    rayWalk board piece.color d.1 d.2 8 (row + d.1) (col + d.2))

/-- The eight king offsets produced by the nested `dr`/`dc` loops, in
iteration order. -/
def kingOffsets : List (Int × Int) :=
  [(-1, -1), (-1, 0), (-1, 1), (0, -1), (0, 1), (1, -1), (1, 0), (1, 1)]

/-- The adjacent-square block of the king case of `getPseudoMoves`. -/
def kingAdjMoves (board : Board) (row col : Int) (piece : Piece) : List Move :=
  kingOffsets.filterMap (fun d =>
    let nextRow := row + d.1
    let nextCol := col + d.2
    if inB nextRow nextCol then
      match bget board nextRow nextCol with
      | none => some ⟨nextRow, nextCol, none, none, none⟩
      | some target =>
        if target.color ≠ piece.color then some ⟨nextRow, nextCol, none, none, none⟩
        else none
    else none)

/-- One entry of the castling `for (const side of [...])` loop. -/
structure CastleSide where
  rookCol : Int
  passCols : List Int
  kingTargetCol : Int
  rookTargetCol : Int

/-- The two castling sides checked by the source, in order. -/
def castleSides : List CastleSide :=
  [⟨7, [5, 6], 6, 5⟩, ⟨0, [1, 2, 3], 2, 3⟩]

/-- `getPseudoMoves(..., forAttackMap = true)`: the attack map of a piece.
The source computes this with the same function and the flag set; because
the castling block (the only recursive use of check detection) is guarded
by `!forAttackMap`, the attack-map specialisation below is non-recursive,
and `getPseudoMoves_attackMap` proves it equal to the flagged function. -/
def attackMoves (board : Board) (lastMove : Option LastMove) (row col : Int)
    (piece : Piece) : List Move :=
  match piece.type with
  | .p => pawnMoves board lastMove row col piece true
  | .n => knightMoves board row col piece
  | .b => sliderMoves board row col piece
  | .r => sliderMoves board row col piece
  | .q => sliderMoves board row col piece
  | .k => kingAdjMoves board row col piece

/-- `isSquareAttacked(board, targetRow, targetCol, attackingColor)` : scan
all 64 squares; for each piece of the attacking color ask whether its
attack map (`getPseudoMoves` with `forAttackMap = true`) contains the
target square. -/
def isSquareAttacked (board : Board) (lastMove : Option LastMove)
    (targetRow targetCol : Int) (attackingColor : PieceColor) : Bool :=
  (List.range 8).any (fun row => (List.range 8).any (fun col =>
    match bget board (row : Int) (col : Int) with
    | some attacker =>
      decide (attacker.color = attackingColor) &&
        (attackMoves board lastMove (row : Int) (col : Int) attacker).any
          (fun m => decide (m.row = targetRow) && decide (m.col = targetCol))
    | none => false))

/-- `getKingSquare(board, color)` : first square (row-major) holding that
color's king, if any. -/
def getKingSquare (board : Board) (color : PieceColor) : Option Square :=
  ((List.range 8).flatMap (fun row => (List.range 8).map (fun col => (row, col)))).findSome?
    (fun rc =>
      match bget board (rc.1 : Int) (rc.2 : Int) with
      | some piece =>
        if piece.color = color ∧ piece.type = .k then some ⟨(rc.1 : Int), (rc.2 : Int)⟩
        else none
      | none => none)

/-- `isKingInCheck(board, color)` : locate the king; a board with no king
of that color reports `false`; otherwise ask `isSquareAttacked` for the
opposing color. -/
def isKingInCheck (board : Board) (lastMove : Option LastMove)
    (color : PieceColor) : Bool :=
  match getKingSquare board color with
  | none => false
  | some kingSquare =>
    isSquareAttacked board lastMove kingSquare.row kingSquare.col (otherColor color)

/-- The body of the castling `for (const side of ...)` loop for one side:
rook present / of rook kind / same color / unmoved, intermediate squares
empty, king path squares not attacked. -/
def castleSideMoves (board : Board) (lastMove : Option LastMove) (row : Int)
    (piece : Piece) (side : CastleSide) : List Move :=
  match bget board row side.rookCol with
  | some rook =>
    if rook.type = .r ∧ rook.color = piece.color ∧ rook.moved = false then
      if side.passCols.any (fun passCol => decide (bget board row passCol ≠ none)) then []
      else
        let enemy := otherColor piece.color
        let dangerCols : List Int := if side.kingTargetCol = 6 then [5, 6] else [3, 2]
        if dangerCols.any (fun dc => isSquareAttacked board lastMove row dc enemy) then []
        else
          [⟨row, side.kingTargetCol, some .castle, some side.rookCol, some side.rookTargetCol⟩]
    else []
  | none => []

/-- The castling block of the king case of `getPseudoMoves`, guarded by
`!forAttackMap && !piece.moved && !this.isKingInCheck(board, piece.color)`
(the mode guard is applied at the call site in `getPseudoMoves`). -/
def castleMoves (board : Board) (lastMove : Option LastMove) (row : Int)
    (piece : Piece) : List Move :=
  if piece.moved = false ∧ isKingInCheck board lastMove piece.color = false then
    castleSides.flatMap (castleSideMoves board lastMove row piece)
  else []

/-- `getPseudoMoves(board, row, col, piece, forAttackMap)` : per-kind
movement rules; `this.lastMove` (read by the pawn en-passant block) is
passed explicitly. -/
def getPseudoMoves (board : Board) (lastMove : Option LastMove) (row col : Int)
    (piece : Piece) (forAttackMap : Bool) : List Move :=
  match piece.type with
  | .p => pawnMoves board lastMove row col piece forAttackMap
  | .n => knightMoves board row col piece
  | .b => sliderMoves board row col piece
  | .r => sliderMoves board row col piece
  | .q => sliderMoves board row col piece
  | .k =>
    kingAdjMoves board row col piece ++
      (if forAttackMap then [] else castleMoves board lastMove row piece)

/-- `getDefenderSquareForMove(board, move, attacker)` : for en passant the
square behind the destination (by attacker color), otherwise the
destination itself; `some` exactly when that square holds an enemy piece. -/
def getDefenderSquareForMove (board : Board) (move : Move) (attacker : Piece) :
    Option Square :=
  if move.special = some .enPassant then
    let captureRow := if attacker.color = .w then move.row + 1 else move.row - 1
    if inB captureRow move.col then
      match bget board captureRow move.col with
      | some defender =>
        if defender.color ≠ attacker.color then some ⟨captureRow, move.col⟩ else none
      | none => none
    else none
  else
    match bget board move.row move.col with
    | some defender =>
      if defender.color ≠ attacker.color then some ⟨move.row, move.col⟩ else none
    | none => none

/-- `movePieceWithPromotion(board, from, move)` : clear the origin, clear
the en-passant victim square if applicable, move the piece (marked moved,
promoting a pawn that lands on row 0 or 7 to a queen with
`hp = min(hp, PIECE_HP.q)`), and for castling relocate the rook (marked
moved).  Returns the updated board and the moved piece (the source mutates
the board argument and returns the piece). -/
def movePieceWithPromotion (board : Board) (fromSq : Square) (move : Move) :
    Board × Piece :=
  match bget board fromSq.row fromSq.col with
  | none => (board, createPiece .w .p)
  | some piece =>
    let board1 := bset board fromSq.row fromSq.col none
    let board2 :=
      if move.special = some .enPassant then
        let captureRow := if piece.color = .w then move.row + 1 else move.row - 1
        bset board1 captureRow move.col none
      else board1
    let movedPiece0 : Piece := { piece with moved := true }
    let movedPiece : Piece :=
      if movedPiece0.type = .p ∧ (move.row = 0 ∨ move.row = 7) then
        { movedPiece0 with
          type := .q,
          maxHp := pieceHpOf PieceType.q,
          hp := min movedPiece0.hp (pieceHpOf PieceType.q) }
      else movedPiece0
    let board3 := bset board2 move.row move.col (some movedPiece)
    let board4 :=
      match move.special, move.rookFromCol, move.rookToCol with
      | some .castle, some rookFromCol, some rookToCol =>
        (match bget board3 move.row rookFromCol with
         | some rook =>
           bset (bset board3 move.row rookFromCol none) move.row rookToCol
             (some { rook with moved := true })
         | none => bset board3 move.row rookFromCol none)
      | _, _, _ => board3
    (board4, movedPiece)

/-- `cloneBoard(board)` : `board.map(row => row.map(p => p ? {...p} : null))`.
In the value model the per-piece copy rebuilds the record field by field. -/
def cloneBoard (board : Board) : Board := fun r c =>
  match board r c with
  | some piece =>
    some { color := piece.color, type := piece.type, moved := piece.moved,
           hp := piece.hp, maxHp := piece.maxHp }
  | none => none

/-- `simulateResolvedBoard(board, from, move)` : clone the board and apply
the combat-resolution rules: damage the defender (floored at 0), remove it
and relocate the attacker when lethal, leave everything but the defender's
HP unchanged when non-lethal, plain relocation when there is no defender. -/
def simulateResolvedBoard (board : Board) (fromSq : Square) (move : Move) : Board :=
  let nextBoard := cloneBoard board
  match bget nextBoard fromSq.row fromSq.col with
  | none => nextBoard
  | some attacker =>
    match getDefenderSquareForMove board move attacker with
    | some defenderSquare =>
      match bget nextBoard defenderSquare.row defenderSquare.col with
      | some defender =>
        if defender.color ≠ attacker.color then
          let newHp := max 0 (defender.hp - getPieceDamage attacker.type)
          let nextBoard1 :=
            bset nextBoard defenderSquare.row defenderSquare.col
              (some { defender with hp := newHp })
          if newHp ≤ 0 then
            let nextBoard2 := bset nextBoard1 defenderSquare.row defenderSquare.col none
            (movePieceWithPromotion nextBoard2 fromSq move).1
          else nextBoard1
        else (movePieceWithPromotion nextBoard fromSq move).1
      | none => (movePieceWithPromotion nextBoard fromSq move).1
    | none => (movePieceWithPromotion nextBoard fromSq move).1

/-- `getLegalMoves(board, from)` : pseudo-moves with `forAttackMap = false`
filtered by simulating each move and rejecting those that leave the
mover's own king in check. -/
def getLegalMoves (board : Board) (lastMove : Option LastMove) (fromSq : Square) :
    List Move :=
  match bget board fromSq.row fromSq.col with
  | none => []
  | some piece =>
    (getPseudoMoves board lastMove fromSq.row fromSq.col piece false).filter
      (fun move => !isKingInCheck (simulateResolvedBoard board fromSq move) lastMove piece.color)

/-- `hasAnyLegalMove(board, color)` : scan all own pieces until one has a
non-empty legal-move list. -/
def hasAnyLegalMove (board : Board) (lastMove : Option LastMove)
    (color : PieceColor) : Bool :=
  (List.range 8).any (fun row => (List.range 8).any (fun col =>
    match bget board (row : Int) (col : Int) with
    | some piece =>
      decide (piece.color = color) &&
        decide (getLegalMoves board lastMove ⟨(row : Int), (col : Int)⟩ ≠ [])
    | none => false))

/-- `this.gameState : 'active' | 'checkmate' | 'stalemate'`. -/
inductive GameStatus where
  | active
  | checkmate
  | stalemate
deriving DecidableEq

/-- `evaluateGameState()` : active when the side to move has a legal move,
otherwise checkmate when in check, else stalemate. -/
def evaluateGameState (board : Board) (lastMove : Option LastMove)
    (turn : PieceColor) : GameStatus :=
  if hasAnyLegalMove board lastMove turn then .active
  else if isKingInCheck board lastMove turn then .checkmate
  else .stalemate

/-- The engine-relevant mutable state of the scene: board, side to move,
derived game status, and the single retained last-move record. -/
structure GState where
  board : Board
  turn : PieceColor
  gameState : GameStatus
  lastMove : Option LastMove

/-- `commitMove(from, move)` : the single authoritative board mutator.
Resolves combat on a clone of the board (non-lethal attacks leave the
attacker at its origin; lethal attacks and plain relocations route through
`movePieceWithPromotion`), overwrites `this.lastMove`, flips the turn and
re-evaluates the game status.  A call with no piece at the origin returns
the state unchanged (the source returns early). -/
def commitMove (s : GState) (fromSq : Square) (move : Move) : GState :=
  match bget s.board fromSq.row fromSq.col with
  | none => s
  | some originPiece =>
    let nextBoard := cloneBoard s.board
    let step : Board × Piece × Square × Bool :=
      match getDefenderSquareForMove s.board move originPiece with
      | some defenderSquare =>
        match bget s.board defenderSquare.row defenderSquare.col with
        | some defender =>
          if defender.color ≠ originPiece.color then
            let damage := getPieceDamage originPiece.type
            match bget nextBoard defenderSquare.row defenderSquare.col with
            | some defenderOnBoard =>
              let newHp := max 0 (defenderOnBoard.hp - damage)
              let nb1 :=
                bset nextBoard defenderSquare.row defenderSquare.col
                  (some { defenderOnBoard with hp := newHp })
              if newHp ≤ 0 then
                let nb2 := bset nb1 defenderSquare.row defenderSquare.col none
                let moved := movePieceWithPromotion nb2 fromSq move
                (moved.1, moved.2, ⟨move.row, move.col⟩,
                  decide (originPiece.type = .p ∧ (move.row - fromSq.row).natAbs = 2))
              else (nb1, originPiece, fromSq, false)
            | none => (nextBoard, originPiece, fromSq, false)
          else
            let moved := movePieceWithPromotion nextBoard fromSq move
            (moved.1, moved.2, ⟨move.row, move.col⟩,
              decide (originPiece.type = .p ∧ (move.row - fromSq.row).natAbs = 2))
        | none =>
          let moved := movePieceWithPromotion nextBoard fromSq move
          (moved.1, moved.2, ⟨move.row, move.col⟩,
            decide (originPiece.type = .p ∧ (move.row - fromSq.row).natAbs = 2))
      | none =>
        let moved := movePieceWithPromotion nextBoard fromSq move
        (moved.1, moved.2, ⟨move.row, move.col⟩,
          decide (originPiece.type = .p ∧ (move.row - fromSq.row).natAbs = 2))
    let newLastMove : Option LastMove :=
      some ⟨fromSq, step.2.2.1, step.2.1, step.2.2.2⟩
    let newTurn := otherColor s.turn
    { board := step.1, turn := newTurn,
      gameState := evaluateGameState step.1 newLastMove newTurn,
      lastMove := newLastMove }

/-- `0 < hp <= maxHp` : the HP invariant for a single piece (spec §3). -/
def pieceOk (piece : Piece) : Prop :=
  0 < piece.hp ∧ piece.hp ≤ piece.maxHp

instance (piece : Piece) : Decidable (pieceOk piece) := by
  unfold pieceOk; infer_instance

instance optionPieceOkDec (o : Option Piece) :
    Decidable (∀ piece, o = some piece → pieceOk piece) :=
  match o with
  | none => isTrue (by intro piece h; cases h)
  | some q =>
    if h : pieceOk q then
      isTrue (by intro piece hp; injection hp with hp; exact hp ▸ h)
    else isFalse (fun H => h (H q rfl))

/-- Every piece present on the board satisfies the HP invariant. -/
def boardInv (board : Board) : Prop :=
  ∀ r c : Fin 8, ∀ piece, board r c = some piece → pieceOk piece

instance (board : Board) : Decidable (boardInv board) := by
  unfold boardInv; infer_instance

/-- Helper for concrete test positions: a board listing its occupied
squares as `(row, col, piece)` triples. -/
def mkBoard (entries : List (Nat × Nat × Piece)) : Board := fun r c =>
  (entries.find? (fun e => e.1 == r.val && e.2.1 == c.val)).map (fun e => e.2.2)

/-!
Heap model for the cloning claim.  The JavaScript engine stores pieces as
mutable objects referenced from the board arrays; `cloneBoard` builds new
arrays holding a fresh object (`{...piece}`) per occupied square, and
`simulateResolvedBoard` then mutates the clone (the defender's `hp` field,
square reassignments, the fresh `{...piece, moved: true}` object built by
`movePieceWithPromotion`).  To state that these mutations are invisible
through the original board, addresses are made explicit: a heap maps
addresses to piece values, a board of references maps squares to optional
addresses, and every allocation uses addresses at or above a bump counter.
The clone deterministically places the copy of square `(r, c)` at address
`n + 8*r + c` (the source allocates one fresh object per occupied square;
the exact addresses are irrelevant, only their freshness matters).
-/

/-- A heap of piece objects, addressed by naturals. -/
abbrev Heap := Nat → Piece

/-- An 8×8 board of references into the heap. -/
abbrev BoardRef := Fin 8 → Fin 8 → Option Nat

/-- Reading `board[row][col]` on a reference board. -/
def rget (board : BoardRef) (row col : Int) : Option Nat :=
  if h : inB row col then
    board ⟨row.toNat, by have hb := h; unfold inB at hb; omega⟩
      ⟨col.toNat, by have hb := h; unfold inB at hb; omega⟩
  else none

/-- Writing `board[row][col] = v` on a reference board. -/
def rset (board : BoardRef) (row col : Int) (v : Option Nat) : BoardRef :=
  fun i j => if ((i : Nat) : Int) = row ∧ ((j : Nat) : Int) = col then v else board i j

/-- Writing one field of a heap object (`obj.hp = ...` and object
allocation both store a whole piece value at an address). -/
def hset (heap : Heap) (addr : Nat) (piece : Piece) : Heap :=
  fun a => if a = addr then piece else heap a

/-- The piece values observable through a reference board. -/
def obsBoard (heap : Heap) (board : BoardRef) : Board :=
  fun r c => (board r c).map heap

/-- All references of the board point below the allocation counter. -/
def wfRef (board : BoardRef) (n : Nat) : Prop :=
  ∀ r c : Fin 8, ∀ a, board r c = some a → a < n

instance wfRefOptionDec (o : Option Nat) (n : Nat) :
    Decidable (∀ a, o = some a → a < n) :=
  match o with
  | none => isTrue (by intro a h; cases h)
  | some x =>
    if h : x < n then isTrue (by intro a ha; injection ha with ha; omega)
    else isFalse (fun H => h (H x rfl))

instance (board : BoardRef) (n : Nat) : Decidable (wfRef board n) := by
  unfold wfRef; infer_instance

/-- The square whose clone lives at relative address `i` (row-major). -/
def sqOfIdx (i : Nat) : Fin 8 × Fin 8 :=
  (⟨i / 8 % 8, Nat.mod_lt _ (by omega)⟩, ⟨i % 8, Nat.mod_lt _ (by omega)⟩)

/-- `cloneBoard` at the heap level: fresh objects at addresses
`n + 8*r + c` holding copies of the referenced piece values; returns the
new heap, the new reference board and the bumped counter. -/
def cloneBoardH (heap : Heap) (board : BoardRef) (n : Nat) :
    Heap × BoardRef × Nat :=
  (fun a =>
     if n ≤ a ∧ a - n < 64 then
       match board (sqOfIdx (a - n)).1 (sqOfIdx (a - n)).2 with
       | some addr => heap addr
       | none => heap a
     else heap a,
   fun r c => (board r c).map (fun _ => n + 8 * r.val + c.val),
   n + 64)

/-- `movePieceWithPromotion` at the heap level: the fresh
`{...piece, moved: true}` object is allocated at the counter, the fresh
rook copy (castling) at the next address. -/
def movePieceWithPromotionH (heap : Heap) (board : BoardRef) (n : Nat)
    (fromSq : Square) (move : Move) : Heap × BoardRef × Nat :=
  match rget board fromSq.row fromSq.col with
  | none => (heap, board, n)
  | some pAddr =>
    let piece := heap pAddr
    let board1 := rset board fromSq.row fromSq.col none
    let board2 :=
      if move.special = some .enPassant then
        let captureRow := if piece.color = .w then move.row + 1 else move.row - 1
        rset board1 captureRow move.col none
      else board1
    let movedPiece0 : Piece := { piece with moved := true }
    let movedPiece : Piece :=
      if movedPiece0.type = .p ∧ (move.row = 0 ∨ move.row = 7) then
        { movedPiece0 with
          type := .q,
          maxHp := pieceHpOf PieceType.q,
          hp := min movedPiece0.hp (pieceHpOf PieceType.q) }
      else movedPiece0
    let heap1 := hset heap n movedPiece
    let board3 := rset board2 move.row move.col (some n)
    match move.special, move.rookFromCol, move.rookToCol with
    | some .castle, some rookFromCol, some rookToCol =>
      (match rget board3 move.row rookFromCol with
       | some rAddr =>
         let heap2 := hset heap1 (n + 1) { heap1 rAddr with moved := true }
         (heap2,
          rset (rset board3 move.row rookFromCol none) move.row rookToCol (some (n + 1)),
          n + 2)
       | none => (heap1, rset board3 move.row rookFromCol none, n + 1))
    | _, _, _ => (heap1, board3, n + 1)

/-- `simulateResolvedBoard` at the heap level: clone, then mutate only the
clone (the defender object's `hp` field lives at a clone address). -/
def simulateResolvedBoardH (heap : Heap) (board : BoardRef) (n : Nat)
    (fromSq : Square) (move : Move) : Heap × BoardRef × Nat :=
  let cl := cloneBoardH heap board n
  let heap1 := cl.1
  let nextBoard := cl.2.1
  let n1 := cl.2.2
  match rget nextBoard fromSq.row fromSq.col with
  | none => (heap1, nextBoard, n1)
  | some aAddr =>
    let attacker := heap1 aAddr
    match getDefenderSquareForMove (obsBoard heap1 board) move attacker with
    | some defenderSquare =>
      match rget nextBoard defenderSquare.row defenderSquare.col with
      | some dAddr =>
        let defender := heap1 dAddr
        if defender.color ≠ attacker.color then
          let newHp := max 0 (defender.hp - getPieceDamage attacker.type)
          let heap2 := hset heap1 dAddr { defender with hp := newHp }
          if newHp ≤ 0 then
            let nextBoard1 := rset nextBoard defenderSquare.row defenderSquare.col none
            movePieceWithPromotionH heap2 nextBoard1 n1 fromSq move
          else (heap2, nextBoard, n1)
        else movePieceWithPromotionH heap1 nextBoard n1 fromSq move
      | none => movePieceWithPromotionH heap1 nextBoard n1 fromSq move
    | none => movePieceWithPromotionH heap1 nextBoard n1 fromSq move

/-- Helper for concrete reference boards. -/
def mkBoardRef (entries : List (Nat × Nat × Nat)) : BoardRef := fun r c =>
  (entries.find? (fun e => e.1 == r.val && e.2.1 == c.val)).map (fun e => e.2.2)

/-! Concrete pieces and positions used to exercise the theorems below. -/

def wKing : Piece := createPiece .w .k

def bKing : Piece := createPiece .b .k

def wRook : Piece := createPiece .w .r

def wBishop : Piece := createPiece .w .b

def wKnight : Piece := createPiece .w .n

def wPawn : Piece := createPiece .w .p

def bPawn : Piece := createPiece .b .p

def bRook : Piece := createPiece .b .r

/-- A lone white king: every legal king move must be exercised by the
legality filter. -/
def oneKingBoard : Board := mkBoard [(7, 4, wKing)]

/-- White knight next to a black rook (damage 2 < hp 4): a non-lethal
attack position. -/
def nonLethalBoard : Board := mkBoard [(4, 4, wKnight), (4, 5, bRook)]

def nonLethalState : GState := ⟨nonLethalBoard, .w, .active, none⟩

/-- A white pawn one step from promotion. -/
def promoBoard : Board := mkBoard [(1, 0, wPawn)]

/-- White king on its home column with an unmoved kingside rook; squares
f1/g1 empty and unattacked. -/
def castleOkBoard : Board := mkBoard [(7, 4, wKing), (7, 7, wRook), (0, 4, bKing)]

/-- White king displaced to column 3 but still unmoved, with a piece on
column 4 (strictly between the king and the kingside rook). -/
def castleOddBoard : Board := mkBoard [(7, 3, wKing), (7, 4, wBishop), (7, 7, wRook)]

/-- A white pawn beside a black pawn that has just double-stepped. -/
def epBoard : Board := mkBoard [(3, 4, wPawn), (3, 5, bPawn)]

/-- The last-move record of that double step. -/
def epLast : LastMove := ⟨⟨1, 5⟩, ⟨3, 5⟩, bPawn, true⟩

/-- White knight about to deliver a lethal blow to a black pawn
(damage 2, HP 2). -/
def lethalBoard : Board := mkBoard [(4, 4, wKnight), (2, 5, bPawn)]

/-- Two lone kings. -/
def twoKingsBoard : Board := mkBoard [(7, 4, wKing), (0, 4, bKing)]

def twoKingsState : GState := ⟨twoKingsBoard, .w, .active, none⟩

/-- A board with no white king at all. -/
def emptyBoard : Board := mkBoard []

/-- A one-object heap position: the white king object at address 0,
referenced from square (7,4). -/
def oneKingHeap : Heap := fun _ => wKing

def oneKingRef : BoardRef := mkBoardRef [(7, 4, 0)]

/-! Basic board-access lemmas. -/

theorem bget_eq_none_of_not_inB (board : Board) {row col : Int} (h : ¬ inB row col) :
    bget board row col = none := by
  unfold bget
  rw [dif_neg h]

theorem inB_of_bget_some {board : Board} {row col : Int} {piece : Piece}
    (h : bget board row col = some piece) : inB row col := by
  by_contra hn
  rw [bget_eq_none_of_not_inB board hn] at h
  cases h

theorem bget_bset_self (board : Board) {row col : Int} (h : inB row col)
    (v : Option Piece) : bget (bset board row col v) row col = v := by
  have hb := h
  unfold inB at hb
  simp only [bget, bset, dif_pos h]
  rw [if_pos]
  constructor <;> omega

theorem bget_bset_other (board : Board) {row col r2 c2 : Int} (v : Option Piece)
    (h : ¬(row = r2 ∧ col = c2)) :
    bget (bset board r2 c2 v) row col = bget board row col := by
  by_cases hin : inB row col
  · have hb := hin
    unfold inB at hb
    simp only [bget, bset, dif_pos hin]
    rw [if_neg]
    intro hc
    obtain ⟨hc1, hc2⟩ := hc
    exact h ⟨by omega, by omega⟩
  · rw [bget_eq_none_of_not_inB _ hin, bget_eq_none_of_not_inB _ hin]

theorem bset_bset_same (board : Board) (row col : Int) (v w : Option Piece) :
    bset (bset board row col v) row col w = bset board row col w := by
  funext i j
  unfold bset
  by_cases hc : ((i : Nat) : Int) = row ∧ ((j : Nat) : Int) = col
  · rw [if_pos hc, if_pos hc]
  · rw [if_neg hc, if_neg hc, if_neg hc]

/-- The per-piece copy performed by `cloneBoard` rebuilds the same value:
in the value model a clone is equal to its source (`cloneBoard_obs` in the
heap model carries the independence content of the claim). -/
theorem cloneBoard_eq (board : Board) : cloneBoard board = board := by
  funext r c
  unfold cloneBoard
  cases board r c <;> rfl

/-- `getPseudoMoves` with `forAttackMap = true` is the (non-recursive)
attack map: the castling block is skipped in attack-map mode. -/
theorem getPseudoMoves_attackMap (board : Board) (lastMove : Option LastMove)
    (row col : Int) (piece : Piece) :
    getPseudoMoves board lastMove row col piece true =
      attackMoves board lastMove row col piece := by
  unfold getPseudoMoves attackMoves
  cases piece.type <;> simp

/-- C1: every move returned by `getLegalMoves`, when simulated through the
combat-resolution rules on a clone of the board (`simulateResolvedBoard`),
yields a board on which the mover's own king's square is not attacked by
the opposing color (its attack maps do not reach the king). -/
theorem c1_legal_moves_keep_king_safe (board : Board) (lastMove : Option LastMove)
    (fromSq : Square) (piece : Piece)
    (hpiece : bget board fromSq.row fromSq.col = some piece)
    (move : Move) (hmove : move ∈ getLegalMoves board lastMove fromSq) :
    ∀ ks, getKingSquare (simulateResolvedBoard board fromSq move) piece.color = some ks →
      isSquareAttacked (simulateResolvedBoard board fromSq move) lastMove
        ks.row ks.col (otherColor piece.color) = false := by
  intro ks hks
  simp only [getLegalMoves, hpiece] at hmove
  have hfilter := (List.mem_filter.mp hmove).2
  simp only [Bool.not_eq_true'] at hfilter
  unfold isKingInCheck at hfilter
  rw [hks] at hfilter
  exact hfilter

/-- C1 witness: a lone white king stepping from e1 to e2. -/
theorem c1_witness :
    bget oneKingBoard 7 4 = some wKing ∧
    (⟨6, 4, none, none, none⟩ : Move) ∈ getLegalMoves oneKingBoard none ⟨7, 4⟩ ∧
    ∀ ks, getKingSquare (simulateResolvedBoard oneKingBoard ⟨7, 4⟩
        ⟨6, 4, none, none, none⟩) wKing.color = some ks →
      isSquareAttacked (simulateResolvedBoard oneKingBoard ⟨7, 4⟩
        ⟨6, 4, none, none, none⟩) none ks.row ks.col (otherColor wKing.color) = false :=
  ⟨by decide, by decide,
    c1_legal_moves_keep_king_safe oneKingBoard none ⟨7, 4⟩ wKing (by decide)
      ⟨6, 4, none, none, none⟩ (by decide)⟩

/-- A produced defender square always holds an enemy piece. -/
theorem defender_of_getDefenderSquare {board : Board} {move : Move}
    {attacker : Piece} {defSq : Square}
    (h : getDefenderSquareForMove board move attacker = some defSq) :
    ∃ defender, bget board defSq.row defSq.col = some defender ∧
      defender.color ≠ attacker.color := by
  unfold getDefenderSquareForMove at h
  by_cases hsp : move.special = some MSpecial.enPassant
  · rw [if_pos hsp] at h
    simp only [] at h
    by_cases hin : inB (if attacker.color = .w then move.row + 1 else move.row - 1) move.col
    · rw [if_pos hin] at h
      cases hget : bget board (if attacker.color = .w then move.row + 1 else move.row - 1)
          move.col with
      | none =>
        rw [hget] at h
        cases h
      | some defender =>
        rw [hget] at h
        simp only [] at h
        by_cases hcol : defender.color ≠ attacker.color
        · rw [if_pos hcol] at h
          injection h with h
          subst h
          exact ⟨defender, hget, hcol⟩
        · rw [if_neg hcol] at h
          cases h
    · rw [if_neg hin] at h
      cases h
  · rw [if_neg hsp] at h
    cases hget : bget board move.row move.col with
    | none =>
      rw [hget] at h
      cases h
    | some defender =>
      rw [hget] at h
      simp only [] at h
      by_cases hcol : defender.color ≠ attacker.color
      · rw [if_pos hcol] at h
        injection h with h
        subst h
        exact ⟨defender, hget, hcol⟩
      · rw [if_neg hcol] at h
        cases h

/-- C2: a committed non-lethal attack (defender HP strictly above the
attacker's damage) only lowers the defender's HP by exactly the damage:
the attacker stays on its origin with all fields (including `moved`)
unchanged, no other square changes, occupancy is everywhere preserved,
and the recorded last move has `wasDoublePawnStep = false` with the
attacker still at its origin. -/
theorem c2_non_lethal_attack (s : GState) (fromSq : Square) (move : Move)
    (originPiece defender : Piece) (defSq : Square)
    (horigin : bget s.board fromSq.row fromSq.col = some originPiece)
    (hdef : getDefenderSquareForMove s.board move originPiece = some defSq)
    (hdefp : bget s.board defSq.row defSq.col = some defender)
    (hhp : getPieceDamage originPiece.type < defender.hp) :
    (commitMove s fromSq move).board =
      bset s.board defSq.row defSq.col
        (some { defender with hp := defender.hp - getPieceDamage originPiece.type }) ∧
    bget (commitMove s fromSq move).board fromSq.row fromSq.col = some originPiece ∧
    (∀ r c : Int, ¬(r = defSq.row ∧ c = defSq.col) →
      bget (commitMove s fromSq move).board r c = bget s.board r c) ∧
    (∀ r c : Int,
      (bget (commitMove s fromSq move).board r c).isSome = (bget s.board r c).isSome) ∧
    (commitMove s fromSq move).lastMove = some ⟨fromSq, fromSq, originPiece, false⟩ := by
  obtain ⟨defender2, hdefp2, henemy2⟩ := defender_of_getDefenderSquare hdef
  rw [hdefp] at hdefp2
  injection hdefp2 with hdefp2
  subst hdefp2
  have hmax : max 0 (defender.hp - getPieceDamage originPiece.type) =
      defender.hp - getPieceDamage originPiece.type := by omega
  have hnot : ¬(defender.hp - getPieceDamage originPiece.type ≤ 0) := by omega
  have hboard : (commitMove s fromSq move).board =
      bset s.board defSq.row defSq.col
        (some { defender with hp := defender.hp - getPieceDamage originPiece.type }) := by
    simp only [commitMove, horigin, cloneBoard_eq, hdef, hdefp, hmax]
    rw [if_pos henemy2, if_neg hnot]
  have hlast : (commitMove s fromSq move).lastMove =
      some ⟨fromSq, fromSq, originPiece, false⟩ := by
    simp only [commitMove, horigin, cloneBoard_eq, hdef, hdefp, hmax]
    rw [if_pos henemy2, if_neg hnot]
  have hne : ¬(fromSq.row = defSq.row ∧ fromSq.col = defSq.col) := by
    intro hc
    rw [hc.1, hc.2, hdefp] at horigin
    injection horigin with horigin
    exact henemy2 (by rw [horigin])
  have hinDef : inB defSq.row defSq.col := inB_of_bget_some hdefp
  refine ⟨hboard, ?_, ?_, ?_, hlast⟩
  · rw [hboard, bget_bset_other _ _ hne, horigin]
  · intro r c hrc
    rw [hboard, bget_bset_other _ _ hrc]
  · intro r c
    by_cases hrc : r = defSq.row ∧ c = defSq.col
    · rw [hboard, hrc.1, hrc.2, bget_bset_self _ hinDef, hdefp]
      rfl
    · rw [hboard, bget_bset_other _ _ hrc]

/-- C2 witness: a white knight (damage 2) striking a black rook (HP 4). -/
theorem c2_witness :
    bget nonLethalState.board 4 4 = some wKnight ∧
    (commitMove nonLethalState ⟨4, 4⟩ ⟨4, 5, none, none, none⟩).board =
      bset nonLethalState.board 4 5 (some { bRook with hp := bRook.hp - getPieceDamage wKnight.type }) ∧
    (commitMove nonLethalState ⟨4, 4⟩ ⟨4, 5, none, none, none⟩).lastMove =
      some ⟨⟨4, 4⟩, ⟨4, 4⟩, wKnight, false⟩ :=
  have h := c2_non_lethal_attack nonLethalState ⟨4, 4⟩ ⟨4, 5, none, none, none⟩
    wKnight bRook ⟨4, 5⟩ (by decide) (by decide) (by decide) (by decide)
  ⟨by decide, h.1, h.2.2.2.2⟩

/-- The board computed by the commit path equals the board computed by
the legality filter's simulation path: both clone, find the same defender
square, apply the same floored damage, make the same removal decision and
share `movePieceWithPromotion` for relocation. -/
theorem commit_board_eq_simulate (s : GState) (fromSq : Square) (move : Move)
    (originPiece : Piece)
    (horigin : bget s.board fromSq.row fromSq.col = some originPiece) :
    (commitMove s fromSq move).board = simulateResolvedBoard s.board fromSq move := by
  simp only [commitMove, simulateResolvedBoard, cloneBoard_eq, horigin]
  cases hdef : getDefenderSquareForMove s.board move originPiece with
  | none => simp only []
  | some defSq =>
    simp only []
    cases hdefp : bget s.board defSq.row defSq.col with
    | none => simp only []
    | some defender =>
      simp only []
      by_cases henemy : defender.color ≠ originPiece.color
      · rw [if_pos henemy, if_pos henemy]
        by_cases hle : max 0 (defender.hp - getPieceDamage originPiece.type) ≤ 0
        · rw [if_pos hle, if_pos hle]
        · rw [if_neg hle, if_neg hle]
      · rw [if_neg henemy, if_neg henemy]

/-- C10: for the same board, origin and move, the board produced by the
legality filter's simulation path (`simulateResolvedBoard`) and the next
board produced by the commit path (`commitMove`) agree square by square
(and hence piece-field by piece-field). -/
theorem c10_commit_refines_simulation (s : GState) (fromSq : Square) (move : Move)
    (originPiece : Piece)
    (horigin : bget s.board fromSq.row fromSq.col = some originPiece) :
    ∀ r c : Fin 8, (commitMove s fromSq move).board r c =
      simulateResolvedBoard s.board fromSq move r c := by
  intro r c
  rw [commit_board_eq_simulate s fromSq move originPiece horigin]

/-- C10 witness: the knight-versus-rook position, committed and simulated. -/
theorem c10_witness :
    bget nonLethalState.board 4 4 = some wKnight ∧
    ∀ r c : Fin 8, (commitMove nonLethalState ⟨4, 4⟩ ⟨4, 5, none, none, none⟩).board r c =
      simulateResolvedBoard nonLethalState.board ⟨4, 4⟩ ⟨4, 5, none, none, none⟩ r c :=
  ⟨by decide,
    c10_commit_refines_simulation nonLethalState ⟨4, 4⟩ ⟨4, 5, none, none, none⟩
      wKnight (by decide)⟩

theorem pieceOk_of_bget {board : Board} {row col : Int} {piece : Piece}
    (hinv : boardInv board) (h : bget board row col = some piece) : pieceOk piece := by
  unfold bget at h
  split at h
  · exact hinv _ _ piece h
  · cases h

theorem boardInv_bset {board : Board} {row col : Int} {v : Option Piece}
    (hinv : boardInv board) (hv : ∀ piece, v = some piece → pieceOk piece) :
    boardInv (bset board row col v) := by
  intro i j q h
  unfold bset at h
  split at h
  · exact hv q h
  · exact hinv i j q h
theorem movePieceWithPromotion_inv (board : Board) (fromSq : Square) (move : Move)
    (hinv : boardInv board) : boardInv (movePieceWithPromotion board fromSq move).1 := by
  unfold movePieceWithPromotion
  cases hb : bget board fromSq.row fromSq.col with
  | none => exact hinv
  | some piece =>
    have hpOk : pieceOk piece := pieceOk_of_bget hinv hb
    simp only []
    have h1 : boardInv (bset board fromSq.row fromSq.col none) :=
      boardInv_bset hinv (fun p h => by cases h)
    have h2 : boardInv (if move.special = some MSpecial.enPassant then
        bset (bset board fromSq.row fromSq.col none)
          (if piece.color = PieceColor.w then move.row + 1 else move.row - 1) move.col none
      else bset board fromSq.row fromSq.col none) := by
      split
      · exact boardInv_bset h1 (fun p h => by cases h)
      · exact h1
    have hmpOk : pieceOk (if piece.type = PieceType.p ∧ (move.row = 0 ∨ move.row = 7) then
        { color := piece.color, type := PieceType.q, moved := true,
          hp := min piece.hp (pieceHpOf PieceType.q), maxHp := pieceHpOf PieceType.q }
      else { color := piece.color, type := piece.type, moved := true,
             hp := piece.hp, maxHp := piece.maxHp }) := by
      have hq : (0 : Int) < pieceHpOf PieceType.q := by decide
      obtain ⟨hposOk, hmaxOk⟩ := hpOk
      split
      · exact ⟨lt_min_iff.mpr ⟨hposOk, hq⟩, min_le_right _ _⟩
      · exact ⟨hposOk, hmaxOk⟩
    have h3 : boardInv (bset (if move.special = some MSpecial.enPassant then
        bset (bset board fromSq.row fromSq.col none)
          (if piece.color = PieceColor.w then move.row + 1 else move.row - 1) move.col none
      else bset board fromSq.row fromSq.col none) move.row move.col
        (some (if piece.type = PieceType.p ∧ (move.row = 0 ∨ move.row = 7) then
          { color := piece.color, type := PieceType.q, moved := true,
            hp := min piece.hp (pieceHpOf PieceType.q), maxHp := pieceHpOf PieceType.q }
        else { color := piece.color, type := piece.type, moved := true,
               hp := piece.hp, maxHp := piece.maxHp }))) := by
      refine boardInv_bset h2 ?_
      intro p h
      injection h with h
      subst h
      exact hmpOk
    split
    · split
      · rename_i rook hrook
        have hrookOk : pieceOk rook := pieceOk_of_bget h3 hrook
        refine boardInv_bset (boardInv_bset h3 (fun p h => by cases h)) ?_
        intro p h
        injection h with h
        subst h
        exact ⟨hrookOk.1, hrookOk.2⟩
      · exact boardInv_bset h3 (fun p h => by cases h)
    · exact h3

theorem getPieceDamage_pos (type : PieceType) : 0 < getPieceDamage type := by
  cases type <;> decide

theorem simulateResolvedBoard_inv (board : Board) (fromSq : Square) (move : Move)
    (hinv : boardInv board) : boardInv (simulateResolvedBoard board fromSq move) := by
  unfold simulateResolvedBoard
  simp only [cloneBoard_eq]
  cases ha : bget board fromSq.row fromSq.col with
  | none => exact hinv
  | some attacker =>
    simp only []
    cases hdef : getDefenderSquareForMove board move attacker with
    | none =>
      simp only []
      exact movePieceWithPromotion_inv _ _ _ hinv
    | some defSq =>
      simp only []
      cases hdefp : bget board defSq.row defSq.col with
      | none =>
        simp only []
        exact movePieceWithPromotion_inv _ _ _ hinv
      | some defender =>
        simp only []
        split
        · split
          · rw [bset_bset_same]
            exact movePieceWithPromotion_inv _ _ _
              (boardInv_bset hinv (fun p h => by cases h))
          · rename_i hnl
            have hdok := pieceOk_of_bget hinv hdefp
            have hdmg := getPieceDamage_pos attacker.type
            have hch := max_choice (0 : Int) (defender.hp - getPieceDamage attacker.type)
            refine boardInv_bset hinv ?_
            intro p h
            injection h with h
            subst h
            constructor
            · simp only []
              omega
            · simp only []
              obtain ⟨h1, h2⟩ := hdok
              omega
        · exact movePieceWithPromotion_inv _ _ _ hinv

theorem commitMove_inv (s : GState) (fromSq : Square) (move : Move)
    (hinv : boardInv s.board) : boardInv (commitMove s fromSq move).board := by
  cases h : bget s.board fromSq.row fromSq.col with
  | none =>
    have hs : commitMove s fromSq move = s := by
      simp only [commitMove, h]
    rw [hs]
    exact hinv
  | some originPiece =>
    rw [commit_board_eq_simulate s fromSq move originPiece h]
    exact simulateResolvedBoard_inv _ _ _ hinv

/-- C3: the HP invariant `0 < hp ≤ maxHp` holds for every piece on the
initial board and for every freshly created piece, and it is preserved by
the simulation path and by the commit path; in particular a defender whose
HP reaches zero or below is removed (were it left in place with
non-positive HP, the preserved invariant would be violated). -/
theorem c3_hp_invariant_preserved :
    boardInv createInitialBoard ∧
    (∀ color type, pieceOk (createPiece color type)) ∧
    (∀ (board : Board) (fromSq : Square) (move : Move), boardInv board →
      boardInv (simulateResolvedBoard board fromSq move)) ∧
    (∀ (s : GState) (fromSq : Square) (move : Move), boardInv s.board →
      boardInv (commitMove s fromSq move).board) := by
  refine ⟨by decide, ?_, ?_, ?_⟩
  · intro color type
    refine ⟨?_, le_refl _⟩
    cases color <;> cases type <;> decide
  · intro board fromSq move hinv
    exact simulateResolvedBoard_inv board fromSq move hinv
  · intro s fromSq move hinv
    exact commitMove_inv s fromSq move hinv

/-- C3 witness: the invariant survives a lethal knight-takes-pawn
simulation (the dead pawn is removed, not zeroed). -/
theorem c3_witness :
    boardInv lethalBoard ∧
    boardInv (simulateResolvedBoard lethalBoard ⟨4, 4⟩ ⟨2, 5, none, none, none⟩) :=
  ⟨by decide,
    c3_hp_invariant_preserved.2.2.1 lethalBoard ⟨4, 4⟩ ⟨2, 5, none, none, none⟩ (by decide)⟩

/-- C4: a pawn completing a move onto its farthest rank (row 0 for white,
row 7 for black) through `movePieceWithPromotion` — the shared relocation
path of plain moves and lethal combat — becomes a queen whose maximum HP
is the queen's per-kind maximum and whose HP is `min` of the pawn's HP
and that maximum; promotion never increases HP. -/
theorem c4_promotion (board : Board) (fromSq : Square) (move : Move) (piece : Piece)
    (hpiece : bget board fromSq.row fromSq.col = some piece)
    (htype : piece.type = .p)
    (hrank : (piece.color = .w ∧ move.row = 0) ∨ (piece.color = .b ∧ move.row = 7)) :
    (movePieceWithPromotion board fromSq move).2.type = .q ∧
    (movePieceWithPromotion board fromSq move).2.maxHp = pieceHpOf PieceType.q ∧
    (movePieceWithPromotion board fromSq move).2.hp = min piece.hp (pieceHpOf PieceType.q) ∧
    (movePieceWithPromotion board fromSq move).2.hp ≤ piece.hp := by
  have hcond : piece.type = PieceType.p ∧ (move.row = 0 ∨ move.row = 7) := by
    rcases hrank with ⟨_, h0⟩ | ⟨_, h7⟩
    · exact ⟨htype, Or.inl h0⟩
    · exact ⟨htype, Or.inr h7⟩
  have hres : (movePieceWithPromotion board fromSq move).2 =
      { color := piece.color, type := PieceType.q, moved := true,
        hp := min piece.hp (pieceHpOf PieceType.q), maxHp := pieceHpOf PieceType.q } := by
    unfold movePieceWithPromotion
    rw [hpiece]
    simp only []
    rw [if_pos hcond]
  rw [hres]
  exact ⟨rfl, rfl, rfl, min_le_left _ _⟩

/-- C4 witness: a white pawn stepping from a2-style (row 1) onto row 0. -/
theorem c4_witness :
    bget promoBoard 1 0 = some wPawn ∧
    (movePieceWithPromotion promoBoard ⟨1, 0⟩ ⟨0, 0, none, none, none⟩).2.type = .q ∧
    (movePieceWithPromotion promoBoard ⟨1, 0⟩ ⟨0, 0, none, none, none⟩).2.maxHp =
      pieceHpOf PieceType.q ∧
    (movePieceWithPromotion promoBoard ⟨1, 0⟩ ⟨0, 0, none, none, none⟩).2.hp =
      min wPawn.hp (pieceHpOf PieceType.q) :=
  have h := c4_promotion promoBoard ⟨1, 0⟩ ⟨0, 0, none, none, none⟩ wPawn
    (by decide) (by decide) (Or.inl ⟨by decide, by decide⟩)
  ⟨by decide, h.1, h.2.1, h.2.2.1⟩

/-- Unfolding of the attack scan: some square holds a piece of the
attacking color whose attack map contains the target. -/
theorem isSquareAttacked_eq_true_iff (board : Board) (lastMove : Option LastMove)
    (targetRow targetCol : Int) (attackingColor : PieceColor) :
    isSquareAttacked board lastMove targetRow targetCol attackingColor = true ↔
      ∃ r c : Nat, r < 8 ∧ c < 8 ∧ ∃ attacker,
        bget board (r : Int) (c : Int) = some attacker ∧
        attacker.color = attackingColor ∧
        ∃ m ∈ attackMoves board lastMove (r : Int) (c : Int) attacker,
          m.row = targetRow ∧ m.col = targetCol := by
  unfold isSquareAttacked
  simp only [List.any_eq_true, List.mem_range]
  constructor
  · rintro ⟨r, hr, c, hc, h⟩
    refine ⟨r, c, hr, hc, ?_⟩
    cases hb : bget board (r : Int) (c : Int) with
    | none =>
      rw [hb] at h
      cases h
    | some attacker =>
      rw [hb] at h
      simp only [Bool.and_eq_true, decide_eq_true_eq, List.any_eq_true] at h
      obtain ⟨hcol, m, hm, hmt⟩ := h
      exact ⟨attacker, rfl, hcol, m, hm, hmt.1, hmt.2⟩
  · rintro ⟨r, c, hr, hc, attacker, hb, hcol, m, hm, hrow, hcol2⟩
    refine ⟨r, hr, c, hc, ?_⟩
    rw [hb]
    simp only [Bool.and_eq_true, decide_eq_true_eq, List.any_eq_true]
    exact ⟨hcol, m, hm, by simp [hrow, hcol2]⟩

/-- Unfolding of the any-legal-move scan. -/
theorem hasAnyLegalMove_eq_true_iff (board : Board) (lastMove : Option LastMove)
    (color : PieceColor) :
    hasAnyLegalMove board lastMove color = true ↔
      ∃ r c : Nat, r < 8 ∧ c < 8 ∧ ∃ piece,
        bget board (r : Int) (c : Int) = some piece ∧
        piece.color = color ∧
        getLegalMoves board lastMove ⟨(r : Int), (c : Int)⟩ ≠ [] := by
  unfold hasAnyLegalMove
  simp only [List.any_eq_true, List.mem_range]
  constructor
  · rintro ⟨r, hr, c, hc, h⟩
    refine ⟨r, c, hr, hc, ?_⟩
    cases hb : bget board (r : Int) (c : Int) with
    | none =>
      rw [hb] at h
      cases h
    | some piece =>
      rw [hb] at h
      simp only [Bool.and_eq_true, decide_eq_true_eq] at h
      exact ⟨piece, rfl, h.1, h.2⟩
  · rintro ⟨r, c, hr, hc, piece, hb, hcol, hne⟩
    refine ⟨r, hr, c, hc, ?_⟩
    rw [hb]
    simp only [Bool.and_eq_true, decide_eq_true_eq]
    exact ⟨hcol, hne⟩

/-- C8: check detection never fails on a kingless board — it reports
"not in check" — and when a king square is found, being in check is
exactly the existence of an opposing piece whose attack map contains
that square. -/
theorem c8_check_detection (board : Board) (lastMove : Option LastMove)
    (color : PieceColor) :
    (getKingSquare board color = none → isKingInCheck board lastMove color = false) ∧
    (∀ ks, getKingSquare board color = some ks →
      (isKingInCheck board lastMove color = true ↔
        ∃ r c : Nat, r < 8 ∧ c < 8 ∧ ∃ attacker,
          bget board (r : Int) (c : Int) = some attacker ∧
          attacker.color = otherColor color ∧
          ∃ m ∈ attackMoves board lastMove (r : Int) (c : Int) attacker,
            m.row = ks.row ∧ m.col = ks.col)) := by
  constructor
  · intro hnone
    unfold isKingInCheck
    rw [hnone]
  · intro ks hks
    unfold isKingInCheck
    rw [hks]
    exact isSquareAttacked_eq_true_iff board lastMove ks.row ks.col (otherColor color)

/-- C8 witness: a board without a white king reports "not in check". -/
theorem c8_witness :
    getKingSquare emptyBoard PieceColor.w = none ∧
    isKingInCheck emptyBoard none PieceColor.w = false :=
  ⟨by decide, (c8_check_detection emptyBoard none PieceColor.w).1 (by decide)⟩

/-- Case analysis of `evaluateGameState`. -/
theorem evaluateGameState_cases (board : Board) (lastMove : Option LastMove)
    (turn : PieceColor) :
    (evaluateGameState board lastMove turn = .active ↔
      hasAnyLegalMove board lastMove turn = true) ∧
    (evaluateGameState board lastMove turn = .checkmate ↔
      hasAnyLegalMove board lastMove turn = false ∧
        isKingInCheck board lastMove turn = true) ∧
    (evaluateGameState board lastMove turn = .stalemate ↔
      hasAnyLegalMove board lastMove turn = false ∧
        isKingInCheck board lastMove turn = false) := by
  unfold evaluateGameState
  by_cases h1 : hasAnyLegalMove board lastMove turn = true
  · rw [if_pos h1]
    simp [h1]
  · have h1f : hasAnyLegalMove board lastMove turn = false := by
      rw [← Bool.not_eq_true]
      exact h1
    rw [if_neg h1]
    by_cases h2 : isKingInCheck board lastMove turn = true
    · rw [if_pos h2]
      simp [h2, h1f]
    · have h2f : isKingInCheck board lastMove turn = false := by
        rw [← Bool.not_eq_true]
        exact h2
      rw [if_neg h2]
      simp [h1f, h2f]

/-- C7: committing a move flips the turn and recomputes the status for
the new side to move: `active` iff some piece of that color has a
non-empty legal-move list, otherwise `checkmate` exactly when that side's
king is in check and `stalemate` exactly when it is not. -/
theorem c7_post_commit_status (s : GState) (fromSq : Square) (move : Move)
    (originPiece : Piece)
    (horigin : bget s.board fromSq.row fromSq.col = some originPiece) :
    (commitMove s fromSq move).turn = otherColor s.turn ∧
    ((commitMove s fromSq move).gameState = .active ↔
      (∃ r c : Nat, r < 8 ∧ c < 8 ∧ ∃ piece,
        bget (commitMove s fromSq move).board (r : Int) (c : Int) = some piece ∧
        piece.color = (commitMove s fromSq move).turn ∧
        getLegalMoves (commitMove s fromSq move).board (commitMove s fromSq move).lastMove
          ⟨(r : Int), (c : Int)⟩ ≠ [])) ∧
    ((commitMove s fromSq move).gameState = .checkmate ↔
      (¬ ∃ r c : Nat, r < 8 ∧ c < 8 ∧ ∃ piece,
        bget (commitMove s fromSq move).board (r : Int) (c : Int) = some piece ∧
        piece.color = (commitMove s fromSq move).turn ∧
        getLegalMoves (commitMove s fromSq move).board (commitMove s fromSq move).lastMove
          ⟨(r : Int), (c : Int)⟩ ≠ []) ∧
      isKingInCheck (commitMove s fromSq move).board (commitMove s fromSq move).lastMove
        (commitMove s fromSq move).turn = true) ∧
    ((commitMove s fromSq move).gameState = .stalemate ↔
      (¬ ∃ r c : Nat, r < 8 ∧ c < 8 ∧ ∃ piece,
        bget (commitMove s fromSq move).board (r : Int) (c : Int) = some piece ∧
        piece.color = (commitMove s fromSq move).turn ∧
        getLegalMoves (commitMove s fromSq move).board (commitMove s fromSq move).lastMove
          ⟨(r : Int), (c : Int)⟩ ≠ []) ∧
      isKingInCheck (commitMove s fromSq move).board (commitMove s fromSq move).lastMove
        (commitMove s fromSq move).turn = false) := by
  have hturn : (commitMove s fromSq move).turn = otherColor s.turn := by
    simp only [commitMove, horigin]
  have hgs : (commitMove s fromSq move).gameState =
      evaluateGameState (commitMove s fromSq move).board
        (commitMove s fromSq move).lastMove (commitMove s fromSq move).turn := by
    simp only [commitMove, horigin]
  obtain ⟨hA, hC, hS⟩ := evaluateGameState_cases (commitMove s fromSq move).board
    (commitMove s fromSq move).lastMove (commitMove s fromSq move).turn
  have hany := hasAnyLegalMove_eq_true_iff (commitMove s fromSq move).board
    (commitMove s fromSq move).lastMove (commitMove s fromSq move).turn
  have hanyf : (hasAnyLegalMove (commitMove s fromSq move).board
      (commitMove s fromSq move).lastMove (commitMove s fromSq move).turn = false) ↔
      ¬ (∃ r c : Nat, r < 8 ∧ c < 8 ∧ ∃ piece,
        bget (commitMove s fromSq move).board (r : Int) (c : Int) = some piece ∧
        piece.color = (commitMove s fromSq move).turn ∧
        getLegalMoves (commitMove s fromSq move).board (commitMove s fromSq move).lastMove
          ⟨(r : Int), (c : Int)⟩ ≠ []) := by
    constructor
    · intro h hcontra
      rw [hany.mpr hcontra] at h
      cases h
    · intro h
      cases hval : hasAnyLegalMove (commitMove s fromSq move).board
        (commitMove s fromSq move).lastMove (commitMove s fromSq move).turn with
      | false => rfl
      | true => exact absurd (hany.mp hval) h
  refine ⟨hturn, ?_, ?_, ?_⟩
  · rw [hgs, hA, hany]
  · rw [hgs, hC, hanyf]
  · rw [hgs, hS, hanyf]

/-- C7 witness: after the lone white king steps forward, it is black's
turn and the game is still active. -/
theorem c7_witness :
    (commitMove twoKingsState ⟨7, 4⟩ ⟨6, 4, none, none, none⟩).turn =
      otherColor twoKingsState.turn :=
  (c7_post_commit_status twoKingsState ⟨7, 4⟩ ⟨6, 4, none, none, none⟩ wKing (by decide)).1

theorem mem_pawnFwdMoves_special {board : Board} {row col : Int} {piece : Piece}
    {fam : Bool} {m : Move} (hm : m ∈ pawnFwdMoves board row col piece fam) :
    m.special = none := by
  unfold pawnFwdMoves at hm
  simp only [] at hm
  split at hm
  · split at hm
    · simp only [List.mem_cons, List.not_mem_nil, or_false] at hm
      rcases hm with hm | hm <;> subst hm <;> rfl
    · simp only [List.mem_cons, List.not_mem_nil, or_false] at hm
      subst hm
      rfl
  · simp at hm

theorem mem_pawnDiagMoves_special {board : Board} {row col : Int} {piece : Piece}
    {fam : Bool} {m : Move} (hm : m ∈ pawnDiagMoves board row col piece fam) :
    m.special = none := by
  unfold pawnDiagMoves at hm
  rw [List.mem_filterMap] at hm
  obtain ⟨delta, hdelta, hf⟩ := hm
  simp only [] at hf
  split at hf
  · split at hf
    · injection hf with hf
      subst hf
      rfl
    · split at hf
      · split at hf
        · injection hf with hf
          subst hf
          rfl
        · cases hf
      · cases hf
  · cases hf

theorem mem_pawnEpMoves_iff {board : Board} {lastMove : Option LastMove}
    {row col : Int} {piece : Piece} {fam : Bool} {m : Move} :
    m ∈ pawnEpMoves board lastMove row col piece fam ↔
      (fam = false ∧ ∃ lm, lastMove = some lm ∧ lm.wasDoublePawnStep = true ∧
        lm.piece.type = .p ∧ lm.piece.color ≠ piece.color ∧ lm.toSq.row = row ∧
        (lm.toSq.col - col).natAbs = 1 ∧
        inB (row + pawnDirection piece.color) lm.toSq.col ∧
        bget board (row + pawnDirection piece.color) lm.toSq.col = none ∧
        m = ⟨row + pawnDirection piece.color, lm.toSq.col, some .enPassant, none, none⟩) := by
  unfold pawnEpMoves
  cases lastMove with
  | none => simp
  | some lm =>
    constructor
    · intro hm
      simp only [] at hm
      split at hm
      · rename_i hcond
        split at hm
        · rename_i hcond2
          simp only [List.mem_cons, List.not_mem_nil, or_false] at hm
          exact ⟨hcond.1, lm, rfl, hcond.2.1, hcond.2.2.1, hcond.2.2.2.1,
            hcond.2.2.2.2.1, hcond.2.2.2.2.2, hcond2.1, hcond2.2, hm⟩
        · simp at hm
      · simp at hm
    · rintro ⟨hfam, lm2, hlm2, hw, hpt, hpc, hrow, hcol, hin, hempty, hmeq⟩
      injection hlm2 with hlm2
      subst hlm2
      simp only []
      rw [if_pos ⟨hfam, hw, hpt, hpc, hrow, hcol⟩, if_pos ⟨hin, hempty⟩]
      simp [hmeq]

/-- C6: (i) an en-passant move is generated for a pawn exactly when
generation is in non-attack-map mode and the retained last-move record is
an opponent pawn double step that landed on the pawn's row, one column
away, with the diagonal target square empty; (ii) every commit overwrites
the last-move record with a record of the committed move, whose
`wasDoublePawnStep` flag can be `true` only if that very move was a pawn
two-row step — so en passant can never be offered later than the move
immediately following the qualifying double step. -/
theorem c6_en_passant_generation :
    (∀ (board : Board) (lastMove : Option LastMove) (row col : Int) (piece : Piece),
      piece.type = .p → ∀ fam : Bool,
      ((∃ m ∈ getPseudoMoves board lastMove row col piece fam,
          m.special = some .enPassant) ↔
        (fam = false ∧ ∃ lm, lastMove = some lm ∧ lm.wasDoublePawnStep = true ∧
          lm.piece.type = .p ∧ lm.piece.color ≠ piece.color ∧ lm.toSq.row = row ∧
          (lm.toSq.col - col).natAbs = 1 ∧
          inB (row + pawnDirection piece.color) lm.toSq.col ∧
          bget board (row + pawnDirection piece.color) lm.toSq.col = none))) ∧
    (∀ (s : GState) (fromSq : Square) (move : Move) (originPiece : Piece),
      bget s.board fromSq.row fromSq.col = some originPiece →
      ∃ lmRec, (commitMove s fromSq move).lastMove = some lmRec ∧
        lmRec.fromSq = fromSq ∧
        (lmRec.wasDoublePawnStep = true →
          originPiece.type = .p ∧ (move.row - fromSq.row).natAbs = 2)) := by
  constructor
  · intro board lastMove row col piece hp fam
    simp only [getPseudoMoves, hp]
    unfold pawnMoves
    constructor
    · rintro ⟨m, hm, hspec⟩
      rcases List.mem_append.mp hm with hm2 | hm2
      · rcases List.mem_append.mp hm2 with hm3 | hm3
        · rw [mem_pawnFwdMoves_special hm3] at hspec
          cases hspec
        · rw [mem_pawnDiagMoves_special hm3] at hspec
          cases hspec
      · obtain ⟨hfam, lm, hlm, h1, h2, h3, h4, h5, h6, h7, hmeq⟩ :=
          mem_pawnEpMoves_iff.mp hm2
        exact ⟨hfam, lm, hlm, h1, h2, h3, h4, h5, h6, h7⟩
    · rintro ⟨hfam, lm, hlm, h1, h2, h3, h4, h5, h6, h7⟩
      refine ⟨⟨row + pawnDirection piece.color, lm.toSq.col, some .enPassant, none, none⟩,
        ?_, rfl⟩
      refine List.mem_append.mpr (Or.inr ?_)
      exact mem_pawnEpMoves_iff.mpr ⟨hfam, lm, hlm, h1, h2, h3, h4, h5, h6, h7, rfl⟩
  · intro s fromSq move originPiece horigin
    simp only [commitMove, horigin, cloneBoard_eq]
    cases hdef : getDefenderSquareForMove s.board move originPiece with
    | none =>
      simp only []
      exact ⟨_, rfl, rfl, fun h => of_decide_eq_true h⟩
    | some defSq =>
      simp only []
      cases hdefp : bget s.board defSq.row defSq.col with
      | none =>
        simp only []
        exact ⟨_, rfl, rfl, fun h => of_decide_eq_true h⟩
      | some defender =>
        simp only []
        by_cases henemy : defender.color ≠ originPiece.color
        · rw [if_pos henemy]
          by_cases hle : max 0 (defender.hp - getPieceDamage originPiece.type) ≤ 0
          · rw [if_pos hle]
            exact ⟨_, rfl, rfl, fun h => of_decide_eq_true h⟩
          · rw [if_neg hle]
            exact ⟨_, rfl, rfl, fun h => nomatch h⟩
        · rw [if_neg henemy]
          exact ⟨_, rfl, rfl, fun h => of_decide_eq_true h⟩

/-- C6 witness: the en-passant capture is offered to the white pawn on
(3,4) right after the black pawn's double step to (3,5). -/
theorem c6_witness :
    ∃ m ∈ getPseudoMoves epBoard (some epLast) 3 4 wPawn false,
      m.special = some MSpecial.enPassant :=
  ((c6_en_passant_generation.1 epBoard (some epLast) 3 4 wPawn (by decide) false).mpr
    (by refine ⟨rfl, epLast, rfl, ?_, ?_, ?_, ?_, ?_, ?_, ?_⟩ <;> decide))

theorem mem_kingAdjMoves_special {board : Board} {row col : Int} {piece : Piece}
    {m : Move} (hm : m ∈ kingAdjMoves board row col piece) : m.special = none := by
  unfold kingAdjMoves at hm
  rw [List.mem_filterMap] at hm
  obtain ⟨d, hd, hf⟩ := hm
  simp only [] at hf
  split at hf
  · split at hf
    · injection hf with hf
      subst hf
      rfl
    · split at hf
      · injection hf with hf
        subst hf
        rfl
      · cases hf
  · cases hf

theorem mem_castleSideMoves_iff {board : Board} {lastMove : Option LastMove}
    {row : Int} {piece : Piece} {side : CastleSide} {m : Move} :
    m ∈ castleSideMoves board lastMove row piece side ↔
      ((∃ rook, bget board row side.rookCol = some rook ∧ rook.type = .r ∧
        rook.color = piece.color ∧ rook.moved = false) ∧
      (∀ passCol ∈ side.passCols, bget board row passCol = none) ∧
      (∀ dc ∈ (if side.kingTargetCol = 6 then ([5, 6] : List Int) else [3, 2]),
        isSquareAttacked board lastMove row dc (otherColor piece.color) = false) ∧
      m = ⟨row, side.kingTargetCol, some .castle, some side.rookCol,
        some side.rookTargetCol⟩) := by
  unfold castleSideMoves
  cases hrk : bget board row side.rookCol with
  | none =>
    simp only [List.not_mem_nil, false_iff]
    rintro ⟨⟨rook, hrook, _⟩, _⟩
    cases hrook
  | some rook =>
    simp only []
    by_cases hcond : rook.type = .r ∧ rook.color = piece.color ∧ rook.moved = false
    · rw [if_pos hcond]
      by_cases hblocked : side.passCols.any
          (fun passCol => decide (bget board row passCol ≠ none)) = true
      · rw [if_pos hblocked]
        simp only [List.not_mem_nil, false_iff]
        rintro ⟨_, hempty, _, _⟩
        rw [List.any_eq_true] at hblocked
        obtain ⟨pc, hpc, hne⟩ := hblocked
        rw [decide_eq_true_eq] at hne
        exact hne (hempty pc hpc)
      · rw [if_neg hblocked]
        by_cases hatt : (if side.kingTargetCol = 6 then ([5, 6] : List Int) else [3, 2]).any
            (fun dc => isSquareAttacked board lastMove row dc (otherColor piece.color)) = true
        · rw [if_pos hatt]
          simp only [List.not_mem_nil, false_iff]
          rintro ⟨_, _, hsafe, _⟩
          rw [List.any_eq_true] at hatt
          obtain ⟨dc, hdc, htrue⟩ := hatt
          rw [hsafe dc hdc] at htrue
          cases htrue
        · rw [if_neg hatt]
          simp only [List.mem_cons, List.not_mem_nil, or_false]
          constructor
          · intro hmeq
            refine ⟨⟨rook, rfl, hcond.1, hcond.2.1, hcond.2.2⟩, ?_, ?_, hmeq⟩
            · intro pc hpc
              by_contra hne
              apply hblocked
              rw [List.any_eq_true]
              exact ⟨pc, hpc, by rw [decide_eq_true_eq]; exact hne⟩
            · intro dc hdc
              rw [← Bool.not_eq_true]
              intro htrue
              exact hatt (List.any_eq_true.mpr ⟨dc, hdc, htrue⟩)
          · rintro ⟨_, _, _, hmeq⟩
            exact hmeq
    · rw [if_neg hcond]
      simp only [List.not_mem_nil, false_iff]
      rintro ⟨⟨rook2, hrook2, ht, hc, hmv⟩, _⟩
      injection hrook2 with hrook2
      subst hrook2
      exact hcond ⟨ht, hc, hmv⟩

theorem kingside_castle_mem_iff (board : Board) (lastMove : Option LastMove)
    (row : Int) (piece : Piece) (htype : piece.type = .k) :
    ((⟨row, 6, some .castle, some 7, some 5⟩ : Move) ∈
        getPseudoMoves board lastMove row 4 piece false) ↔
      (piece.moved = false ∧ isKingInCheck board lastMove piece.color = false ∧
       (∃ rook, bget board row 7 = some rook ∧ rook.type = .r ∧
          rook.color = piece.color ∧ rook.moved = false) ∧
       bget board row 5 = none ∧ bget board row 6 = none ∧
       isSquareAttacked board lastMove row 5 (otherColor piece.color) = false ∧
       isSquareAttacked board lastMove row 6 (otherColor piece.color) = false) := by
  have hred : getPseudoMoves board lastMove row 4 piece false =
      kingAdjMoves board row 4 piece ++ castleMoves board lastMove row piece := by
    simp [getPseudoMoves, htype]
  rw [hred]
  have hdl : (if ((6 : Int) = 6) then ([5, 6] : List Int) else [3, 2]) = [5, 6] :=
    if_pos rfl
  constructor
  · intro hmem
    rcases List.mem_append.mp hmem with h | h
    · have hsp := mem_kingAdjMoves_special h
      simp at hsp
    · unfold castleMoves at h
      split at h
      · rename_i hguard
        rw [List.mem_flatMap] at h
        obtain ⟨side, hside, hmemside⟩ := h
        unfold castleSides at hside
        simp only [List.mem_cons, List.not_mem_nil, or_false] at hside
        rcases hside with rfl | rfl
        · obtain ⟨hrookEx, hpass, hatt, _⟩ := mem_castleSideMoves_iff.mp hmemside
          rw [hdl] at hatt
          refine ⟨hguard.1, hguard.2, hrookEx, ?_, ?_, ?_, ?_⟩
          · exact hpass 5 (by simp)
          · exact hpass 6 (by simp)
          · exact hatt 5 (by simp)
          · exact hatt 6 (by simp)
        · obtain ⟨_, _, _, hmeq⟩ := mem_castleSideMoves_iff.mp hmemside
          injection hmeq with h1 h2 h3 h4 h5
          exact absurd h2 (by decide)
      · simp at h
  · rintro ⟨hmoved, hcheck, hrookEx, h5, h6, ha5, ha6⟩
    refine List.mem_append.mpr (Or.inr ?_)
    unfold castleMoves
    rw [if_pos ⟨hmoved, hcheck⟩, List.mem_flatMap]
    refine ⟨⟨7, [5, 6], 6, 5⟩, by unfold castleSides; exact List.mem_cons_self _ _, ?_⟩
    refine mem_castleSideMoves_iff.mpr ⟨hrookEx, ?_, ?_, rfl⟩
    · intro pc hpc
      simp only [List.mem_cons, List.not_mem_nil, or_false] at hpc
      rcases hpc with rfl | rfl
      · exact h5
      · exact h6
    · intro dc hdc
      rw [hdl] at hdc
      simp only [List.mem_cons, List.not_mem_nil, or_false] at hdc
      rcases hdc with rfl | rfl
      · exact ha5
      · exact ha6

theorem queenside_castle_mem_iff (board : Board) (lastMove : Option LastMove)
    (row : Int) (piece : Piece) (htype : piece.type = .k) :
    ((⟨row, 2, some .castle, some 0, some 3⟩ : Move) ∈
        getPseudoMoves board lastMove row 4 piece false) ↔
      (piece.moved = false ∧ isKingInCheck board lastMove piece.color = false ∧
       (∃ rook, bget board row 0 = some rook ∧ rook.type = .r ∧
          rook.color = piece.color ∧ rook.moved = false) ∧
       bget board row 1 = none ∧ bget board row 2 = none ∧ bget board row 3 = none ∧
       isSquareAttacked board lastMove row 3 (otherColor piece.color) = false ∧
       isSquareAttacked board lastMove row 2 (otherColor piece.color) = false) := by
  have hred : getPseudoMoves board lastMove row 4 piece false =
      kingAdjMoves board row 4 piece ++ castleMoves board lastMove row piece := by
    simp [getPseudoMoves, htype]
  rw [hred]
  have hdl : (if ((2 : Int) = 6) then ([5, 6] : List Int) else [3, 2]) = [3, 2] :=
    if_neg (by decide)
  constructor
  · intro hmem
    rcases List.mem_append.mp hmem with h | h
    · have hsp := mem_kingAdjMoves_special h
      simp at hsp
    · unfold castleMoves at h
      split at h
      · rename_i hguard
        rw [List.mem_flatMap] at h
        obtain ⟨side, hside, hmemside⟩ := h
        unfold castleSides at hside
        simp only [List.mem_cons, List.not_mem_nil, or_false] at hside
        rcases hside with rfl | rfl
        · obtain ⟨_, _, _, hmeq⟩ := mem_castleSideMoves_iff.mp hmemside
          injection hmeq with h1 h2 h3 h4 h5
          exact absurd h2 (by decide)
        · obtain ⟨hrookEx, hpass, hatt, _⟩ := mem_castleSideMoves_iff.mp hmemside
          rw [hdl] at hatt
          refine ⟨hguard.1, hguard.2, hrookEx, ?_, ?_, ?_, ?_, ?_⟩
          · exact hpass 1 (by simp)
          · exact hpass 2 (by simp)
          · exact hpass 3 (by simp)
          · exact hatt 3 (by simp)
          · exact hatt 2 (by simp)
      · simp at h
  · rintro ⟨hmoved, hcheck, hrookEx, h1, h2, h3, ha3, ha2⟩
    refine List.mem_append.mpr (Or.inr ?_)
    unfold castleMoves
    rw [if_pos ⟨hmoved, hcheck⟩, List.mem_flatMap]
    refine ⟨⟨0, [1, 2, 3], 2, 3⟩,
      by unfold castleSides; exact List.mem_cons_of_mem _ (List.mem_cons_self _ _), ?_⟩
    refine mem_castleSideMoves_iff.mpr ⟨hrookEx, ?_, ?_, rfl⟩
    · intro pc hpc
      simp only [List.mem_cons, List.not_mem_nil, or_false] at hpc
      rcases hpc with rfl | rfl | rfl
      · exact h1
      · exact h2
      · exact h3
    · intro dc hdc
      rw [hdl] at hdc
      simp only [List.mem_cons, List.not_mem_nil, or_false] at hdc
      rcases hdc with rfl | rfl
      · exact ha3
      · exact ha2

theorem castle_commit_effect (board : Board) (row : Int) (piece rook : Piece)
    (hking : bget board row 4 = some piece) (htype : piece.type = .k)
    (hrook : bget board row 7 = some rook) :
    bget (movePieceWithPromotion board ⟨row, 4⟩
        ⟨row, 6, some .castle, some 7, some 5⟩).1 row 6 =
      some { piece with moved := true } ∧
    bget (movePieceWithPromotion board ⟨row, 4⟩
        ⟨row, 6, some .castle, some 7, some 5⟩).1 row 5 =
      some { rook with moved := true } ∧
    bget (movePieceWithPromotion board ⟨row, 4⟩
        ⟨row, 6, some .castle, some 7, some 5⟩).1 row 4 = none ∧
    bget (movePieceWithPromotion board ⟨row, 4⟩
        ⟨row, 6, some .castle, some 7, some 5⟩).1 row 7 = none := by
  have hrowB := inB_of_bget_some hking
  unfold inB at hrowB
  have hin5 : inB row 5 := by unfold inB; omega
  have hin6 : inB row 6 := by unfold inB; omega
  have hin4 : inB row 4 := by unfold inB; omega
  have hin7 : inB row 7 := by unfold inB; omega
  have hb3 : bget (bset (bset board row 4 none) row 6
      (some { piece with moved := true })) row 7 = some rook := by
    rw [bget_bset_other _ _ (by intro hc; exact absurd hc.2 (by decide)),
      bget_bset_other _ _ (by intro hc; exact absurd hc.2 (by decide))]
    exact hrook
  have hres : (movePieceWithPromotion board ⟨row, 4⟩
      ⟨row, 6, some .castle, some 7, some 5⟩).1 =
      bset (bset (bset (bset board row 4 none) row 6 (some { piece with moved := true }))
        row 7 none) row 5 (some { rook with moved := true }) := by
    unfold movePieceWithPromotion
    rw [hking]
    simp only []
    rw [if_neg (by decide)]
    rw [if_neg (fun hc => by rw [htype] at hc; exact absurd hc.1 (by decide))]
    rw [hb3]
  rw [hres]
  refine ⟨?_, ?_, ?_, ?_⟩
  · rw [bget_bset_other _ _ (by intro hc; exact absurd hc.2 (by decide)),
      bget_bset_other _ _ (by intro hc; exact absurd hc.2 (by decide)),
      bget_bset_self _ hin6]
  · rw [bget_bset_self _ hin5]
  · rw [bget_bset_other _ _ (by intro hc; exact absurd hc.2 (by decide)),
      bget_bset_other _ _ (by intro hc; exact absurd hc.2 (by decide)),
      bget_bset_other _ _ (by intro hc; exact absurd hc.2 (by decide)),
      bget_bset_self _ hin4]
  · rw [bget_bset_other _ _ (by intro hc; exact absurd hc.2 (by decide)),
      bget_bset_self _ hin7]

theorem castle_commit_effect_queenside (board : Board) (row : Int) (piece rook : Piece)
    (hking : bget board row 4 = some piece) (htype : piece.type = .k)
    (hrook : bget board row 0 = some rook) :
    bget (movePieceWithPromotion board ⟨row, 4⟩
        ⟨row, 2, some .castle, some 0, some 3⟩).1 row 2 =
      some { piece with moved := true } ∧
    bget (movePieceWithPromotion board ⟨row, 4⟩
        ⟨row, 2, some .castle, some 0, some 3⟩).1 row 3 =
      some { rook with moved := true } ∧
    bget (movePieceWithPromotion board ⟨row, 4⟩
        ⟨row, 2, some .castle, some 0, some 3⟩).1 row 4 = none ∧
    bget (movePieceWithPromotion board ⟨row, 4⟩
        ⟨row, 2, some .castle, some 0, some 3⟩).1 row 0 = none := by
  have hrowB := inB_of_bget_some hking
  unfold inB at hrowB
  have hin3 : inB row 3 := by unfold inB; omega
  have hin2 : inB row 2 := by unfold inB; omega
  have hin4 : inB row 4 := by unfold inB; omega
  have hin0 : inB row 0 := by unfold inB; omega
  have hb3 : bget (bset (bset board row 4 none) row 2
      (some { piece with moved := true })) row 0 = some rook := by
    rw [bget_bset_other _ _ (by intro hc; exact absurd hc.2 (by decide)),
      bget_bset_other _ _ (by intro hc; exact absurd hc.2 (by decide))]
    exact hrook
  have hres : (movePieceWithPromotion board ⟨row, 4⟩
      ⟨row, 2, some .castle, some 0, some 3⟩).1 =
      bset (bset (bset (bset board row 4 none) row 2 (some { piece with moved := true }))
        row 0 none) row 3 (some { rook with moved := true }) := by
    unfold movePieceWithPromotion
    rw [hking]
    simp only []
    rw [if_neg (by decide)]
    rw [if_neg (fun hc => by rw [htype] at hc; exact absurd hc.1 (by decide))]
    rw [hb3]
  rw [hres]
  refine ⟨?_, ?_, ?_, ?_⟩
  · rw [bget_bset_other _ _ (by intro hc; exact absurd hc.2 (by decide)),
      bget_bset_other _ _ (by intro hc; exact absurd hc.2 (by decide)),
      bget_bset_self _ hin2]
  · rw [bget_bset_self _ hin3]
  · rw [bget_bset_other _ _ (by intro hc; exact absurd hc.2 (by decide)),
      bget_bset_other _ _ (by intro hc; exact absurd hc.2 (by decide)),
      bget_bset_other _ _ (by intro hc; exact absurd hc.2 (by decide)),
      bget_bset_self _ hin4]
  · rw [bget_bset_other _ _ (by intro hc; exact absurd hc.2 (by decide)),
      bget_bset_self _ hin0]

/-- C5 counterexample: with the white king displaced to (7,3) — unmoved
flag still false — a bishop stands on (7,4), a square strictly between
the king (column 3) and the kingside rook (column 7); the claimed
condition "every square strictly between king and rook is empty" fails,
yet the castling generator (which checks only the fixed columns 5 and 6)
still produces the kingside castle move.  The claimed equivalence is
therefore false on this board. -/
theorem c5_counterexample :
    (⟨7, 6, some .castle, some 7, some 5⟩ : Move) ∈
      getPseudoMoves castleOddBoard none 7 3 wKing false ∧
    bget castleOddBoard 7 4 ≠ none := by
  constructor
  · decide
  · decide

/-- C5 (amended): for a king standing on column 4 (its initial file, the
only file a never-moved king can occupy in play), a castle move is
produced iff generation is non-attack-map, the king is unmoved and not in
check, the corresponding rook square holds an unmoved same-color rook,
every square strictly between king and rook is empty (columns 5,6
kingside; 1,2,3 queenside) and no square the king passes through
(including the destination; columns 5,6 kingside, 3,2 queenside) is
attacked; no castle move at all is produced in attack-map mode; and
committing a castle relocates king and rook to their castled squares
(king two columns toward the rook, rook adjacent on the inside), both
marked moved. -/
theorem c5_castling_amended (board : Board) (lastMove : Option LastMove)
    (row : Int) (piece : Piece)
    (hking : bget board row 4 = some piece) (htype : piece.type = .k) :
    (((⟨row, 6, some .castle, some 7, some 5⟩ : Move) ∈
        getPseudoMoves board lastMove row 4 piece false) ↔
      (piece.moved = false ∧ isKingInCheck board lastMove piece.color = false ∧
       (∃ rook, bget board row 7 = some rook ∧ rook.type = .r ∧
          rook.color = piece.color ∧ rook.moved = false) ∧
       bget board row 5 = none ∧ bget board row 6 = none ∧
       isSquareAttacked board lastMove row 5 (otherColor piece.color) = false ∧
       isSquareAttacked board lastMove row 6 (otherColor piece.color) = false)) ∧
    (((⟨row, 2, some .castle, some 0, some 3⟩ : Move) ∈
        getPseudoMoves board lastMove row 4 piece false) ↔
      (piece.moved = false ∧ isKingInCheck board lastMove piece.color = false ∧
       (∃ rook, bget board row 0 = some rook ∧ rook.type = .r ∧
          rook.color = piece.color ∧ rook.moved = false) ∧
       bget board row 1 = none ∧ bget board row 2 = none ∧ bget board row 3 = none ∧
       isSquareAttacked board lastMove row 3 (otherColor piece.color) = false ∧
       isSquareAttacked board lastMove row 2 (otherColor piece.color) = false)) ∧
    (∀ m ∈ getPseudoMoves board lastMove row 4 piece true,
      m.special ≠ some MSpecial.castle) ∧
    (∀ rook, bget board row 7 = some rook →
      bget (movePieceWithPromotion board ⟨row, 4⟩
          ⟨row, 6, some .castle, some 7, some 5⟩).1 row 6 =
        some { piece with moved := true } ∧
      bget (movePieceWithPromotion board ⟨row, 4⟩
          ⟨row, 6, some .castle, some 7, some 5⟩).1 row 5 =
        some { rook with moved := true } ∧
      bget (movePieceWithPromotion board ⟨row, 4⟩
          ⟨row, 6, some .castle, some 7, some 5⟩).1 row 4 = none ∧
      bget (movePieceWithPromotion board ⟨row, 4⟩
          ⟨row, 6, some .castle, some 7, some 5⟩).1 row 7 = none) ∧
    (∀ rook, bget board row 0 = some rook →
      bget (movePieceWithPromotion board ⟨row, 4⟩
          ⟨row, 2, some .castle, some 0, some 3⟩).1 row 2 =
        some { piece with moved := true } ∧
      bget (movePieceWithPromotion board ⟨row, 4⟩
          ⟨row, 2, some .castle, some 0, some 3⟩).1 row 3 =
        some { rook with moved := true } ∧
      bget (movePieceWithPromotion board ⟨row, 4⟩
          ⟨row, 2, some .castle, some 0, some 3⟩).1 row 4 = none ∧
      bget (movePieceWithPromotion board ⟨row, 4⟩
          ⟨row, 2, some .castle, some 0, some 3⟩).1 row 0 = none) := by
  refine ⟨kingside_castle_mem_iff board lastMove row piece htype,
    queenside_castle_mem_iff board lastMove row piece htype, ?_, ?_, ?_⟩
  · intro m hm
    rw [getPseudoMoves_attackMap] at hm
    unfold attackMoves at hm
    rw [htype] at hm
    rw [mem_kingAdjMoves_special hm]
    intro hc
    cases hc
  · intro rook hrook
    exact castle_commit_effect board row piece rook hking htype hrook
  · intro rook hrook
    exact castle_commit_effect_queenside board row piece rook hking htype hrook

/-- C5 witness: on `castleOkBoard` (king e1, rook h1, squares f1/g1 empty
and unattacked) the kingside castle move is produced. -/
theorem c5_witness :
    (⟨7, 6, some .castle, some 7, some 5⟩ : Move) ∈
      getPseudoMoves castleOkBoard none 7 4 wKing false :=
  ((c5_castling_amended castleOkBoard none 7 wKing (by decide) (by decide)).1).mpr
    (by refine ⟨?_, ?_, ⟨wRook, ?_, ?_, ?_, ?_⟩, ?_, ?_, ?_, ?_⟩ <;> decide)

theorem sqOfIdx_mul_add (r c : Fin 8) : sqOfIdx (8 * r.val + c.val) = (r, c) := by
  unfold sqOfIdx
  have hr := r.isLt
  have hc := c.isLt
  refine Prod.ext ?_ ?_ <;> apply Fin.ext <;> simp only [] <;> omega

theorem cloneH_heap_frame (heap : Heap) (board : BoardRef) (n : Nat) :
    ∀ a, a < n → (cloneBoardH heap board n).1 a = heap a := by
  intro a ha
  unfold cloneBoardH
  dsimp only []
  rw [if_neg]
  intro hc
  omega

theorem cloneH_obs (heap : Heap) (board : BoardRef) (n : Nat) :
    ∀ r c : Fin 8, obsBoard (cloneBoardH heap board n).1 (cloneBoardH heap board n).2.1 r c =
      obsBoard heap board r c := by
  intro r c
  unfold obsBoard cloneBoardH
  dsimp only []
  cases hb : board r c with
  | none => rfl
  | some addr =>
    simp only [Option.map_some']
    congr 1
    have hrl := r.isLt
    have hcl := c.isLt
    rw [if_pos (by constructor <;> omega)]
    have hidx : n + 8 * r.val + c.val - n = 8 * r.val + c.val := by omega
    rw [hidx, sqOfIdx_mul_add, hb]

theorem rget_cloneRef_ge {heap : Heap} {board : BoardRef} {n : Nat} {r c : Int} {a : Nat}
    (h : rget (cloneBoardH heap board n).2.1 r c = some a) : n ≤ a := by
  unfold rget at h
  split at h
  · unfold cloneBoardH at h
    dsimp only [] at h
    cases hb : board _ _ with
    | none =>
      rw [hb] at h
      cases h
    | some x =>
      rw [hb] at h
      simp only [Option.map_some'] at h
      injection h with h
      omega
  · cases h

theorem moveH_heap_frame (heap : Heap) (board : BoardRef) (n : Nat)
    (fromSq : Square) (move : Move) :
    ∀ a, a < n → (movePieceWithPromotionH heap board n fromSq move).1 a = heap a := by
  intro a ha
  unfold movePieceWithPromotionH
  cases hp : rget board fromSq.row fromSq.col with
  | none => rfl
  | some pAddr =>
    simp only []
    split
    · split
      · simp only [hset]
        rw [if_neg (by omega), if_neg (by omega)]
      · simp only [hset]
        rw [if_neg (by omega)]
    · simp only [hset]
      rw [if_neg (by omega)]

theorem simulateH_heap_frame (heap : Heap) (board : BoardRef) (n : Nat)
    (fromSq : Square) (move : Move) :
    ∀ a, a < n → (simulateResolvedBoardH heap board n fromSq move).1 a = heap a := by
  intro a ha
  unfold simulateResolvedBoardH
  dsimp only []
  cases hr : rget (cloneBoardH heap board n).2.1 fromSq.row fromSq.col with
  | none =>
    exact cloneH_heap_frame heap board n a ha
  | some aAddr =>
    dsimp only []
    cases hdef : getDefenderSquareForMove (obsBoard (cloneBoardH heap board n).1 board)
        move ((cloneBoardH heap board n).1 aAddr) with
    | none =>
      rw [moveH_heap_frame _ _ _ _ _ a (by dsimp only [cloneBoardH]; omega)]
      exact cloneH_heap_frame heap board n a ha
    | some defSq =>
      dsimp only []
      cases hd2 : rget (cloneBoardH heap board n).2.1 defSq.row defSq.col with
      | none =>
        rw [moveH_heap_frame _ _ _ _ _ a (by dsimp only [cloneBoardH]; omega)]
        exact cloneH_heap_frame heap board n a ha
      | some dAddr =>
        have hdge : n ≤ dAddr := rget_cloneRef_ge hd2
        dsimp only []
        split
        · split
          · rw [moveH_heap_frame _ _ _ _ _ a (by dsimp only [cloneBoardH]; omega)]
            simp only [hset]
            rw [if_neg (by omega)]
            exact cloneH_heap_frame heap board n a ha
          · simp only [hset]
            rw [if_neg (by omega)]
            exact cloneH_heap_frame heap board n a ha
        · rw [moveH_heap_frame _ _ _ _ _ a (by dsimp only [cloneBoardH]; omega)]
          exact cloneH_heap_frame heap board n a ha

/-- C9: in the explicit-heap model of the engine's object graph, cloning
copies every piece by value (the clone observes the same board), and the
legality-filter simulation applied to the clone mutates only
fresh-allocated objects: every square and every piece field observed
through the original board is unchanged. -/
theorem c9_clone_is_independent (heap : Heap) (board : BoardRef) (n : Nat)
    (fromSq : Square) (move : Move) (hwf : wfRef board n) :
    (∀ r c : Fin 8, obsBoard (cloneBoardH heap board n).1
        (cloneBoardH heap board n).2.1 r c = obsBoard heap board r c) ∧
    (∀ r c : Fin 8, obsBoard (simulateResolvedBoardH heap board n fromSq move).1
        board r c = obsBoard heap board r c) := by
  constructor
  · exact cloneH_obs heap board n
  · intro r c
    unfold obsBoard
    cases hb : board r c with
    | none => rfl
    | some addr =>
      have hlt : addr < n := hwf r c addr hb
      simp only [Option.map_some']
      congr 1
      exact simulateH_heap_frame heap board n fromSq move addr hlt

/-- C9 witness: a one-piece heap position run through the heap-level
simulation leaves the original board's observation intact. -/
theorem c9_witness :
    wfRef oneKingRef 1 ∧
    ∀ r c : Fin 8,
      obsBoard (simulateResolvedBoardH oneKingHeap oneKingRef 1 ⟨7, 4⟩
          ⟨6, 4, none, none, none⟩).1 oneKingRef r c =
        obsBoard oneKingHeap oneKingRef r c :=
  ⟨by decide,
    (c9_clone_is_independent oneKingHeap oneKingRef 1 ⟨7, 4⟩ ⟨6, 4, none, none, none⟩
      (by decide)).2⟩
